import Mathlib

/-!
Verification of the LC-3 virtual machine (marslan6/Virtual-Machine).

The C++ sources are shallowly embedded: machine words are `Nat` with
explicit reductions modulo 2^16 wherever the source performs `uint16_t`
arithmetic, memory and the register file are functions `Nat → Nat`, and
the host console is modelled by explicit oracle streams (key-availability
polls and standard-input bytes) carried in the machine state.  Host
output is an append-only list of bytes.  The host is little-endian
(the sources compile only on Windows x86: `Windows.h`, `conio.h`), so
`fread` into a `uint16_t` assembles two file bytes as low-byte-first.
-/

/-- Keyboard status register address (MemoryIO.h, `MR_KBSR`). -/
def MR_KBSR : Nat := 0xFE00

/-- Keyboard data register address (MemoryIO.h, `MR_KBDR`). -/
def MR_KBDR : Nat := 0xFE02

/-- Condition flag P (CPU.h, `FL_POSITIVE = 1 << 0`). -/
def FL_POSITIVE : Nat := 1

/-- Condition flag Z (CPU.h, `FL_ZERO = 1 << 1`). -/
def FL_ZERO : Nat := 2

/-- Condition flag N (CPU.h, `FL_NEGATIVE = 1 << 2`). -/
def FL_NEGATIVE : Nat := 4

/-- Register index of R0 (CPU.h, `Registers`). -/
def R_0 : Nat := 0

/-- Register index of R7 (CPU.h, `Registers`). -/
def R_7 : Nat := 7

/-- Register index of the program counter (CPU.h, `Registers`). -/
def R_PC : Nat := 8

/-- Register index of the condition-code register (CPU.h, `Registers`). -/
def R_COND : Nat := 9

/-- Initial program counter (CPU.h, `PC_START = 0x3000`). -/
def PC_START : Nat := 0x3000

/-- Pointwise update of a `Nat → Nat` table (an array store). -/
def updFn (f : Nat → Nat) (i v : Nat) : Nat → Nat :=
  fun j => if j = i then v else f j

/-- The machine state: the CPU register file and memory array, the run
flag, the host-console oracles (key-availability polls consumed by
`CheckKey`, standard-input bytes consumed by `getchar`) and the bytes
written to standard output so far. -/
structure Machine where
  regs : Nat → Nat
  memory : Nat → Nat
  running : Bool
  keyAvail : List Bool
  input : List Nat
  output : List Nat

/-- MemoryIO::Read (MemoryIO.cpp).  Reading `MR_KBSR` polls the host:
with a key pending, KBSR is set to `1 <<< 15` and KBDR receives the next
standard-input character (converted to `uint16_t`); otherwise KBSR is
cleared.  The function returns the word stored at the requested address
after these updates.  Each call at `MR_KBSR` consumes one poll result,
and one input byte when the poll succeeded. -/
def memRead (m : Machine) (memoryAddress : Nat) : Nat × Machine :=
  if memoryAddress = MR_KBSR then
    if m.keyAvail.headD false then
      let c := m.input.headD 0
      let mem2 := updFn (updFn m.memory MR_KBSR 0x8000) MR_KBDR (c % 65536)
      (mem2 memoryAddress,
        { m with memory := mem2, keyAvail := m.keyAvail.tail, input := m.input.tail })
    else
      let mem1 := updFn m.memory MR_KBSR 0
      (mem1 memoryAddress,
        { m with memory := mem1, keyAvail := m.keyAvail.tail })
  else
    (m.memory memoryAddress, m)

/-- MemoryIO::Write (MemoryIO.cpp): an unconditional store. -/
def memWrite (m : Machine) (address value : Nat) : Machine :=
  { m with memory := updFn m.memory address value }

/-- ArithmeticLogicUnit::SignExtend (ArithmeticLogicUnit.cpp).  When the
sign bit (bit `immNumberLength - 1`) is set, the result is
`immNumber | (0xFFFF << immNumberLength)` truncated to `uint16_t`. -/
def SignExtend (immNumber : Nat) (immNumberLength : Nat) : Nat :=
  if (immNumber >>> (immNumberLength - 1)) &&& 1 = 1 then
    (immNumber ||| (0xFFFF <<< immNumberLength)) % 65536
  else
    immNumber

/-- ArithmeticLogicUnit::Swap16 (ArithmeticLogicUnit.cpp):
`(number << 8) | (number >> 8)` truncated to `uint16_t`. -/
def Swap16 (number : Nat) : Nat :=
  ((number <<< 8) ||| (number >>> 8)) % 65536

/-- CPU::UpdateFlags (CPU.cpp): writes exactly one of Z, N, P into
`R_COND`, inspecting the value currently held by register `DR`. -/
def UpdateFlags (regs : Nat → Nat) (DR : Nat) : Nat → Nat :=
  if regs DR = 0 then updFn regs R_COND FL_ZERO
  else if (regs DR) >>> 15 = 1 then updFn regs R_COND FL_NEGATIVE
  else updFn regs R_COND FL_POSITIVE

namespace ALU

/-- ArithmeticLogicUnit::ADD (register or immediate mode), with the
`uint16_t` wrap of the sum and the trailing flag update. -/
def ADD (instruction : Nat) (regs : Nat → Nat) : Nat → Nat :=
  let DR := (instruction >>> 9) &&& 0x0007
  let SR1 := (instruction >>> 6) &&& 0x0007
  let imm := (instruction >>> 5) &&& 0x0001
  let regs1 :=
    if imm = 1 then
      let imm5 := SignExtend (instruction &&& 0x001F) 5
      updFn regs DR ((regs SR1 + imm5) % 65536)
    else
      let SR2 := instruction &&& 0x0007
      updFn regs DR ((regs SR1 + regs SR2) % 65536)
  UpdateFlags regs1 DR

/-- ArithmeticLogicUnit::AND (register or immediate mode). -/
def AND (instruction : Nat) (regs : Nat → Nat) : Nat → Nat :=
  let DR := (instruction >>> 9) &&& 0x0007
  let SR1 := (instruction >>> 6) &&& 0x0007
  let imm := (instruction >>> 5) &&& 0x0001
  let regs1 :=
    if imm = 1 then
      let imm5 := SignExtend (instruction &&& 0x001F) 5
      updFn regs DR (regs SR1 &&& imm5)
    else
      let SR2 := instruction &&& 0x0007
      updFn regs DR (regs SR1 &&& regs SR2)
  UpdateFlags regs1 DR

/-- ArithmeticLogicUnit::NOT: the `uint16_t` bitwise complement
`~registers[SR1]`, which equals `65535 - x` for a 16-bit `x`. -/
def NOT (instruction : Nat) (regs : Nat → Nat) : Nat → Nat :=
  let DR := (instruction >>> 9) &&& 0x0007
  let SR1 := (instruction >>> 6) &&& 0x0007
  UpdateFlags (updFn regs DR (65535 - regs SR1 % 65536)) DR

/-- ArithmeticLogicUnit::BR: adds the sign-extended 9-bit offset to the
(already incremented) program counter when the tested flags intersect
`R_COND`. -/
def BR (instruction : Nat) (regs : Nat → Nat) : Nat → Nat :=
  let pcOffset := SignExtend (instruction &&& 0x01FF) 9
  let conditionFlag := (instruction >>> 9) &&& 0x0007
  if conditionFlag &&& regs R_COND ≠ 0 then
    updFn regs R_PC ((regs R_PC + pcOffset) % 65536)
  else
    regs

/-- ArithmeticLogicUnit::JMP: loads the program counter from a base
register. -/
def JMP (instruction : Nat) (regs : Nat → Nat) : Nat → Nat :=
  let SR1 := (instruction >>> 6) &&& 0x0007
  updFn regs R_PC (regs SR1)

/-- ArithmeticLogicUnit::JSR: saves the program counter into R7, then
either adds the sign-extended 11-bit offset (JSR) or jumps through a
base register (JSRR).  The base register is read after R7 was saved,
as in the source. -/
def JSR (instruction : Nat) (regs : Nat → Nat) : Nat → Nat :=
  let longFlag := (instruction >>> 11) &&& 0x0001
  let regs1 := updFn regs R_7 (regs R_PC)
  if longFlag = 1 then
    let longPCOffset := SignExtend (instruction &&& 0x07FF) 11
    updFn regs1 R_PC ((regs1 R_PC + longPCOffset) % 65536)
  else
    let SR1 := (instruction >>> 6) &&& 0x0007
    updFn regs1 R_PC (regs1 SR1)

/-- ArithmeticLogicUnit::LD: a bus read at `PC + sext9(offset)` into
`DR`, followed by the flag update. -/
def LD (instruction : Nat) (m : Machine) : Machine :=
  let DR := (instruction >>> 9) &&& 0x0007
  let pcOffset := SignExtend (instruction &&& 0x01FF) 9
  let rm := memRead m ((m.regs R_PC + pcOffset) % 65536)
  { rm.2 with regs := UpdateFlags (updFn rm.2.regs DR rm.1) DR }

/-- ArithmeticLogicUnit::LDR: a bus read at `base + sext6(offset)`. -/
def LDR (instruction : Nat) (m : Machine) : Machine :=
  let DR := (instruction >>> 9) &&& 0x0007
  let SR1 := (instruction >>> 6) &&& 0x0007
  let offset := SignExtend (instruction &&& 0x003F) 6
  let rm := memRead m ((m.regs SR1 + offset) % 65536)
  { rm.2 with regs := UpdateFlags (updFn rm.2.regs DR rm.1) DR }

/-- ArithmeticLogicUnit::LEA: stores the effective address itself. -/
def LEA (instruction : Nat) (regs : Nat → Nat) : Nat → Nat :=
  let DR := (instruction >>> 9) &&& 0x0007
  let pcOffset := SignExtend (instruction &&& 0x01FF) 9
  UpdateFlags (updFn regs DR ((regs R_PC + pcOffset) % 65536)) DR

/-- ArithmeticLogicUnit::ST: a bus write of `registers[DR]` to
`PC + sext9(offset)`. -/
def ST (instruction : Nat) (m : Machine) : Machine :=
  let DR := (instruction >>> 9) &&& 0x0007
  let pcOffset := SignExtend (instruction &&& 0x01FF) 9
  memWrite m ((m.regs R_PC + pcOffset) % 65536) (m.regs DR)

/-- ArithmeticLogicUnit::STI: a bus read at `PC + sext9(offset)` gives
the store address for `registers[DR]`. -/
def STI (instruction : Nat) (m : Machine) : Machine :=
  let DR := (instruction >>> 9) &&& 0x0007
  let pcOffset := SignExtend (instruction &&& 0x01FF) 9
  let rm := memRead m ((m.regs R_PC + pcOffset) % 65536)
  memWrite rm.2 rm.1 (rm.2.regs DR)

/-- ArithmeticLogicUnit::STR: a bus write of `registers[DR]` to
`base + sext6(offset)`. -/
def STR (instruction : Nat) (m : Machine) : Machine :=
  let DR := (instruction >>> 9) &&& 0x0007
  let SR1 := (instruction >>> 6) &&& 0x0007
  let offset := SignExtend (instruction &&& 0x003F) 6
  memWrite m ((m.regs SR1 + offset) % 65536) (m.regs DR)

/-- ArithmeticLogicUnit::LDI: two chained bus reads. -/
def LDI (instruction : Nat) (m : Machine) : Machine :=
  let DR := (instruction >>> 9) &&& 0x0007
  let pcOffset := SignExtend (instruction &&& 0x01FF) 9
  let rm1 := memRead m ((m.regs R_PC + pcOffset) % 65536)
  let rm2 := memRead rm1.2 rm1.1
  { rm2.2 with regs := UpdateFlags (updFn rm2.2.regs DR rm2.1) DR }

end ALU

namespace Trap

/-- Trap::GETC: `registers[R_0] = (uint16_t)getchar()`, then the flag
update.  One byte is consumed from standard input, nothing is echoed. -/
def GETC (m : Machine) : Machine :=
  let c := m.input.headD 0
  { m with regs := UpdateFlags (updFn m.regs R_0 (c % 65536)) R_0,
           input := m.input.tail }

/-- Trap::OUTC: writes the low byte of R0 (the `(char)` cast) to host
output and flushes. -/
def OUTC (m : Machine) : Machine :=
  { m with output := m.output ++ [m.regs R_0 % 256] }

/-- The word scan of Trap::PUTS: one output byte (the `(char)` cast of
the word) per memory word, stopping at the first zero word.  The fuel
argument bounds the scan; the source loop walks raw memory and the
callers instantiate the fuel with the distance to the end of the
array. -/
def putsBytes (mem : Nat → Nat) (c : Nat) : Nat → List Nat
  | 0 => []
  | fuel + 1 =>
    if mem c = 0 then []
    else (mem c % 256) :: putsBytes mem (c + 1) fuel

/-- Trap::PUTS: outputs the scan starting at `memory[R0]` and flushes. -/
def PUTS (m : Machine) : Machine :=
  { m with output := m.output ++ putsBytes m.memory (m.regs R_0) (65536 - m.regs R_0) }

/-- The prompt bytes of Trap::INC. -/
def promptBytes : List Nat :=
  [69, 110, 116, 101, 114, 32, 97, 32, 99, 104, 97, 114, 97, 99, 116, 101, 114, 58, 32]

/-- Trap::INC: prints the prompt, reads one byte into a (signed) `char`,
echoes it, stores the `(uint16_t)` conversion of that `char` into R0
(sign-extending bytes at or above 128) and updates the flags. -/
def INC (m : Machine) : Machine :=
  let c := m.input.headD 0
  let r0 := if c % 256 < 128 then c % 256 else 0xFF00 + c % 256
  { m with regs := UpdateFlags (updFn m.regs R_0 r0) R_0,
           input := m.input.tail,
           output := m.output ++ promptBytes ++ [c % 256] }

/-- The word scan of Trap::PUTSP: per non-zero word, the low byte and
then the high byte when that high byte is non-zero; the scan stops at
the first zero 16-bit word. -/
def putspBytes (mem : Nat → Nat) (c : Nat) : Nat → List Nat
  | 0 => []
  | fuel + 1 =>
    if mem c = 0 then []
    else
      let char1 := mem c % 256
      let char2 := (mem c >>> 8) % 256
      (char1 :: if char2 ≠ 0 then [char2] else []) ++ putspBytes mem (c + 1) fuel

/-- Trap::PUTSP: outputs the two-bytes-per-word scan starting at
`memory[R0]` and flushes. -/
def PUTSP (m : Machine) : Machine :=
  { m with output := m.output ++ putspBytes m.memory (m.regs R_0) (65536 - m.regs R_0) }

/-- Trap::HALT: prints `HALT` and a newline, flushes and clears the run
flag. -/
def HALT (m : Machine) : Machine :=
  { m with output := m.output ++ [72, 65, 76, 84, 10], running := false }

/-- Trap::Proxy: saves the return address into R7, then dispatches on
the low byte of the instruction.  A vector outside the six known ones
falls through the switch and only the R7 save remains. -/
def Proxy (instruction : Nat) (m : Machine) : Machine :=
  let m1 := { m with regs := updFn m.regs R_7 (m.regs R_PC) }
  let vector := instruction &&& 0x00FF
  if vector = 0x20 then GETC m1
  else if vector = 0x21 then OUTC m1
  else if vector = 0x22 then PUTS m1
  else if vector = 0x23 then INC m1
  else if vector = 0x24 then PUTSP m1
  else if vector = 0x25 then HALT m1
  else m1

end Trap

/-- One iteration of the VirtualMachine::RunVirtualMachine loop: fetch
through the bus at `R_PC`, post-increment `R_PC` with `uint16_t` wrap,
extract the high nibble and dispatch.  Opcodes 8 (RTI) and 13 (RES)
reach `abort()` in the source, modelled as `none`; every other opcode
value yields the successor state. -/
def step (m : Machine) : Option Machine :=
  let rm := memRead m (m.regs R_PC)
  let instruction := rm.1
  let m1 := { rm.2 with regs := updFn rm.2.regs R_PC ((rm.2.regs R_PC + 1) % 65536) }
  let operation := instruction >>> 12
  if operation = 1 then some { m1 with regs := ALU.ADD instruction m1.regs }
  else if operation = 5 then some { m1 with regs := ALU.AND instruction m1.regs }
  else if operation = 9 then some { m1 with regs := ALU.NOT instruction m1.regs }
  else if operation = 0 then some { m1 with regs := ALU.BR instruction m1.regs }
  else if operation = 12 then some { m1 with regs := ALU.JMP instruction m1.regs }
  else if operation = 4 then some { m1 with regs := ALU.JSR instruction m1.regs }
  else if operation = 2 then some (ALU.LD instruction m1)
  else if operation = 10 then some (ALU.LDI instruction m1)
  else if operation = 6 then some (ALU.LDR instruction m1)
  else if operation = 14 then some { m1 with regs := ALU.LEA instruction m1.regs }
  else if operation = 3 then some (ALU.ST instruction m1)
  else if operation = 11 then some (ALU.STI instruction m1)
  else if operation = 7 then some (ALU.STR instruction m1)
  else if operation = 15 then some (Trap.Proxy instruction m1)
  else none

/-- The machine state right after the CPU constructor and the host
set-up: `R_COND` holds Z, `R_PC` holds `0x3000`, the run flag is set.
The other registers and the memory hold arbitrary contents (the CPU
member arrays are not zero-initialized; memory additionally reflects
whatever images were loaded), and the host oracles are arbitrary. -/
def initMachine (g : Nat → Nat) (mem : Nat → Nat) (keys : List Bool) (inp : List Nat) :
    Machine :=
  { regs := updFn (updFn g R_COND FL_ZERO) R_PC PC_START,
    memory := mem, running := true, keyAvail := keys, input := inp, output := [] }

/-- States reachable by the engine: an initial state followed by any
number of completed fetch-decode-execute iterations. -/
inductive Reachable : Machine → Prop where
  | base : ∀ g mem keys inp, Reachable (initMachine g mem keys inp)
  | next : ∀ m m', Reachable m → step m = some m' → Reachable m'

/-- Pairing of a byte stream into `uint16_t` values as `fread` does on
the little-endian host: first byte into the low half, second into the
high half.  `fread` only delivers complete elements, so a trailing odd
byte yields no word. -/
def readWords : List Nat → List Nat
  | b0 :: b1 :: rest => (b0 + 256 * b1) :: readWords rest
  | _ => []

/-- Storing a list of words at consecutive addresses, as the
swap-in-place loop of CPU::ReadImageFile leaves them. -/
def storeWords (mem : Nat → Nat) (p : Nat) : List Nat → (Nat → Nat)
  | [] => mem
  | w :: ws => storeWords (updFn mem p w) (p + 1) ws

/-- CPU::ReadImageFile (CPU.cpp) on the little-endian host, applied to
the full byte stream of an already opened image file.  The first two
bytes give the origin after `Swap16`; `maxRead = MEMORY_MAX - origin`
is computed in `uint16_t`, at most that many words are read, and each
stored word is passed through `Swap16`.  A file too short to hold an
origin word leaves the `uint16_t` origin of the source uninitialized,
which has no defined meaning; the model returns memory unchanged
there. -/
def ReadImageFile (file : List Nat) (mem : Nat → Nat) : Nat → Nat :=
  match file with
  | b0 :: b1 :: rest =>
    let origin := Swap16 (b0 + 256 * b1)
    let maxRead := (65536 - origin) % 65536
    storeWords mem origin (((readWords rest).take maxRead).map Swap16)
  | _ => mem

/-- A bus transaction: MemoryIO::Read or MemoryIO::Write. -/
inductive BusOp where
  | read : Nat → BusOp
  | write : Nat → Nat → BusOp

/-- Running a sequence of bus transactions, discarding read results. -/
def runBusOps (m : Machine) : List BusOp → Machine
  | [] => m
  | BusOp.read a :: ops => runBusOps (memRead m a).2 ops
  | BusOp.write a v :: ops => runBusOps (memWrite m a v) ops

/-- A 16-bit or `w`-bit pattern reinterpreted as a signed integer in
two-complement. -/
def toSigned (w x : Nat) : Int :=
  if x < 2 ^ (w - 1) then (x : Int) else (x : Int) - 2 ^ w

/-- The byte encoding PUTSP gives to one non-zero word, following the
spec: the low byte, then the high byte when it is non-zero. -/
def putspSpecWord (w : Nat) : List Nat :=
  (w % 256) :: (if (w >>> 8) % 256 ≠ 0 then [(w >>> 8) % 256] else [])

/-- Modelled from the spec (section 4.5, PUTSP): the bytes emitted for
the `n` words stored from address `c` on, each encoded low byte first
and high byte only when non-zero. -/
def putspSpec (mem : Nat → Nat) (c : Nat) : Nat → List Nat
  | 0 => []
  | n + 1 => putspSpecWord (mem c) ++ putspSpec mem (c + 1) n

/-- Big-endian byte serialization of a list of 16-bit words, as an image
file stores them. -/
def bigEndianBytes : List Nat → List Nat
  | [] => []
  | w :: ws => (w >>> 8) :: (w % 256) :: bigEndianBytes ws

example : SignExtend 0x10 5 = 0xFFF0 := by decide
example : Swap16 0x1234 = 0x3412 := by decide

theorem updFn_same (f : Nat → Nat) (i v : Nat) : updFn f i v i = v := by
  simp [updFn]

theorem updFn_other (f : Nat → Nat) (i v j : Nat) (h : j ≠ i) : updFn f i v j = f j := by
  simp [updFn, h]

/-- C1: a bus read of `0xFE00` polls the host; with a pending key it
latches `0x8000` into KBSR and the consumed input character (with zero
high byte) into KBDR, without one it clears KBSR; in both cases it
returns the just-updated KBSR word.  A read of any other address
returns the stored word and changes no state. -/
theorem C1_kbsr_read (m : Machine) :
    (∀ ks c cs, m.keyAvail = true :: ks → m.input = c :: cs → c < 256 →
      (memRead m 0xFE00).2.memory 0xFE00 = 0x8000 ∧
      (memRead m 0xFE00).2.memory 0xFE02 = c ∧
      (memRead m 0xFE00).2.memory 0xFE02 < 256 ∧
      (memRead m 0xFE00).2.input = cs ∧
      (memRead m 0xFE00).1 = (memRead m 0xFE00).2.memory 0xFE00) ∧
    (∀ ks, m.keyAvail = false :: ks →
      (memRead m 0xFE00).2.memory 0xFE00 = 0 ∧
      (memRead m 0xFE00).1 = (memRead m 0xFE00).2.memory 0xFE00) ∧
    (∀ a, a ≠ 0xFE00 → memRead m a = (m.memory a, m)) := by
  refine ⟨?_, ?_, ?_⟩
  · intro ks c cs hk hi hc
    simp only [memRead, MR_KBSR, MR_KBDR, hk, hi, List.headD, List.tail]
    norm_num [updFn, Nat.mod_eq_of_lt hc]
    omega
  · intro ks hk
    simp only [memRead, MR_KBSR, hk, List.headD, List.tail]
    norm_num [updFn]
  · intro a ha
    simp only [memRead, MR_KBSR]
    rw [if_neg (by exact_mod_cast ha)]

theorem C1_kbsr_read_witness :
    let m : Machine :=
      { regs := fun _ => 0, memory := fun _ => 7, running := true,
        keyAvail := [true], input := [65], output := [] }
    (memRead m 0xFE00).2.memory 0xFE00 = 0x8000 ∧
    (memRead m 0xFE00).2.memory 0xFE02 = 65 ∧
    memRead m 0x3000 = (7, m) := by
  intro m
  obtain ⟨h1, _, h3⟩ := C1_kbsr_read m
  obtain ⟨a1, a2, _, _, _⟩ := h1 [] 65 [] rfl rfl (by norm_num)
  exact ⟨a1, a2, h3 0x3000 (by norm_num)⟩

/-- C7: a TRAP whose low byte is none of the six known vectors saves
R7 and changes nothing else: memory, the run flag, host output and
input, and every register other than R7 stay as they were, and the
step returns to the fetch loop. -/
theorem C7_unknown_trap (m : Machine) (instruction : Nat)
    (h20 : instruction &&& 0x00FF ≠ 0x20) (h21 : instruction &&& 0x00FF ≠ 0x21)
    (h22 : instruction &&& 0x00FF ≠ 0x22) (h23 : instruction &&& 0x00FF ≠ 0x23)
    (h24 : instruction &&& 0x00FF ≠ 0x24) (h25 : instruction &&& 0x00FF ≠ 0x25) :
    Trap.Proxy instruction m = { m with regs := updFn m.regs R_7 (m.regs R_PC) } ∧
    (Trap.Proxy instruction m).memory = m.memory ∧
    (Trap.Proxy instruction m).running = m.running ∧
    (Trap.Proxy instruction m).output = m.output ∧
    (Trap.Proxy instruction m).input = m.input ∧
    (Trap.Proxy instruction m).regs R_7 = m.regs R_PC ∧
    (∀ j, j ≠ R_7 → (Trap.Proxy instruction m).regs j = m.regs j) := by
  have hP : Trap.Proxy instruction m = { m with regs := updFn m.regs R_7 (m.regs R_PC) } := by
    simp only [Trap.Proxy]
    rw [if_neg h20, if_neg h21, if_neg h22, if_neg h23, if_neg h24, if_neg h25]
  refine ⟨hP, ?_, ?_, ?_, ?_, ?_, ?_⟩
  · rw [hP]
  · rw [hP]
  · rw [hP]
  · rw [hP]
  · simp [hP, updFn]
  · intro j hj
    simp [hP, updFn, hj]

theorem C7_unknown_trap_witness :
    let m : Machine :=
      { regs := fun i => if i = 8 then 0x3333 else 5, memory := fun _ => 9,
        running := true, keyAvail := [], input := [], output := [] }
    Trap.Proxy 0xF026 m = { m with regs := updFn m.regs R_7 (m.regs R_PC) } ∧
    (Trap.Proxy 0xF026 m).regs R_7 = 0x3333 := by
  intro m
  obtain ⟨h1, _, _, _, _, h6, _⟩ :=
    C7_unknown_trap m 0xF026 (by decide) (by decide) (by decide)
      (by decide) (by decide) (by decide)
  exact ⟨h1, h6⟩

/-- C10: an image file whose origin word is zero loads nothing:
`maxRead = MEMORY_MAX - origin` wraps to 0 in `uint16_t`, so zero data
words are requested and memory is returned unchanged. -/
theorem C10_origin_zero_loads_nothing (rest : List Nat) (mem : Nat → Nat) :
    ReadImageFile (0 :: 0 :: rest) mem = mem := rfl

theorem swap16_bytes (h l : Nat) (hh : h < 256) (hl : l < 256) :
    Swap16 (h + 256 * l) = 256 * h + l := by
  unfold Swap16
  rw [Nat.shiftLeft_eq, Nat.shiftRight_eq_div_pow]
  have e1 : (h + 256 * l) / 2 ^ 8 = l := by omega
  have e2 : (h + 256 * l) * 2 ^ 8 = 2 ^ 8 * (h + 256 * l) := by ring
  have hl8 : l < 2 ^ 8 := by omega
  rw [e1, e2, ← Nat.mul_add_lt_is_or hl8]
  omega

theorem map_swap_read (ws : List Nat) (hw : ∀ w ∈ ws, w < 65536) :
    (readWords (bigEndianBytes ws)).map Swap16 = ws := by
  induction ws with
  | nil => rfl
  | cons w ws ih =>
    have hww : w < 65536 := hw w (by simp)
    have hdiv : w >>> 8 = w / 256 := by
      rw [Nat.shiftRight_eq_div_pow]
    have h8 : w >>> 8 < 256 := by omega
    have hm : w % 256 < 256 := Nat.mod_lt _ (by norm_num)
    simp only [bigEndianBytes, readWords, List.map]
    rw [swap16_bytes _ _ h8 hm]
    have hhead : 256 * (w >>> 8) + w % 256 = w := by omega
    rw [hhead, ih (fun x hx => hw x (by simp [hx]))]

theorem storeWords_lt (ws : List Nat) (mem : Nat → Nat) (p a : Nat) (h : a < p) :
    storeWords mem p ws a = mem a := by
  induction ws generalizing mem p with
  | nil => rfl
  | cons w ws ih =>
    simp only [storeWords]
    rw [ih _ _ (by omega), updFn_other _ _ _ _ (by omega)]

theorem storeWords_ge (ws : List Nat) (mem : Nat → Nat) (p a : Nat)
    (h : p + ws.length ≤ a) : storeWords mem p ws a = mem a := by
  induction ws generalizing mem p with
  | nil => rfl
  | cons w ws ih =>
    simp only [storeWords]
    simp only [List.length_cons] at h
    rw [ih _ _ (by omega), updFn_other _ _ _ _ (by omega)]

theorem storeWords_get (ws : List Nat) (mem : Nat → Nat) (p i : Nat)
    (h : i < ws.length) : storeWords mem p ws (p + i) = ws.getD i 0 := by
  induction ws generalizing mem p i with
  | nil => simp at h
  | cons w ws ih =>
    cases i with
    | zero =>
      simp only [storeWords, List.getD_cons_zero, Nat.add_zero]
      rw [storeWords_lt _ _ _ _ (by omega)]
      exact updFn_same _ _ _
    | succ i =>
      simp only [storeWords, List.getD_cons_succ]
      have hp : p + (i + 1) = (p + 1) + i := by omega
      rw [hp, ih _ _ _ (by simpa using h)]

theorem take_getD (l : List Nat) (n i : Nat) (h : i < n) :
    (l.take n).getD i 0 = l.getD i 0 := by
  induction l generalizing n i with
  | nil => simp
  | cons x l ih =>
    cases n with
    | zero => omega
    | succ n =>
      cases i with
      | zero => simp
      | succ i =>
        simp only [List.take_succ_cons, List.getD_cons_succ]
        exact ih n i (by omega)

/-- C2 counterexample: the claim as stated fails at origin 0.  Loading
the image `00 00 12 34` (origin 0, one data word `0x1234`) into
zero-filled memory leaves `memory[0]` at 0, not `0x1234`, because
`maxRead = MEMORY_MAX - origin` wraps to 0 in `uint16_t`. -/
theorem C2_image_load_counterexample :
    ReadImageFile [0x00, 0x00, 0x12, 0x34] (fun _ => 0) 0 ≠ 0x1234 := by decide

/-- C2, amended: loading an image with origin word `O` and `N`
big-endian data words stores data word `i` at `memory[O + i]` for every
`i < min N ((0x10000 - O) mod 2^16)` — so at most `(0x10000 - O) mod
2^16` words are loaded, excess words are ignored, and an origin-0 image
loads nothing — and every address outside the loaded range keeps its
previous word.  The byte-for-byte fread model fixes the host as
little-endian, the only platform the sources build on. -/
theorem C2_image_load_amended (mem : Nat → Nat) (o0 o1 : Nat) (words : List Nat)
    (ho0 : o0 < 256) (ho1 : o1 < 256) (hw : ∀ w ∈ words, w < 65536) :
    (∀ i, i < min words.length ((65536 - (256 * o0 + o1)) % 65536) →
      ReadImageFile (o0 :: o1 :: bigEndianBytes words) mem (256 * o0 + o1 + i) =
        words.getD i 0) ∧
    (∀ a, (a < 256 * o0 + o1 ∨
        256 * o0 + o1 + min words.length ((65536 - (256 * o0 + o1)) % 65536) ≤ a) →
      ReadImageFile (o0 :: o1 :: bigEndianBytes words) mem a = mem a) := by
  have horigin : Swap16 (o0 + 256 * o1) = 256 * o0 + o1 := swap16_bytes o0 o1 ho0 ho1
  have hdata : (readWords (bigEndianBytes words)).map Swap16 = words :=
    map_swap_read words hw
  have hunfold : ReadImageFile (o0 :: o1 :: bigEndianBytes words) mem =
      storeWords mem (256 * o0 + o1)
        (words.take ((65536 - (256 * o0 + o1)) % 65536)) := by
    simp only [ReadImageFile]
    rw [horigin, List.map_take, hdata]
  refine ⟨?_, ?_⟩
  · intro i hi
    rw [hunfold, storeWords_get _ _ _ _ (by rw [List.length_take]; omega),
      take_getD _ _ _ (by omega)]
  · intro a ha
    rw [hunfold]
    rcases ha with h | h
    · exact storeWords_lt _ _ _ _ h
    · exact storeWords_ge _ _ _ _ (by rw [List.length_take]; omega)

theorem C2_image_load_amended_witness :
    ReadImageFile (0x30 :: 0x00 :: bigEndianBytes [0x1234, 0x5678]) (fun _ => 0)
        (256 * 0x30 + 0x00 + 0) = 0x1234 ∧
    ReadImageFile (0x30 :: 0x00 :: bigEndianBytes [0x1234, 0x5678]) (fun _ => 0)
        (256 * 0x30 + 0x00 + 1) = 0x5678 ∧
    ReadImageFile (0x30 :: 0x00 :: bigEndianBytes [0x1234, 0x5678]) (fun _ => 0)
        0x2FFF = 0 := by
  obtain ⟨h1, h2⟩ :=
    C2_image_load_amended (fun _ => 0) 0x30 0x00 [0x1234, 0x5678]
      (by norm_num) (by norm_num) (by decide)
  refine ⟨?_, ?_, ?_⟩
  · simpa using h1 0 (by norm_num)
  · simpa using h1 1 (by norm_num)
  · simpa using h2 0x2FFF (by norm_num)

theorem signExtend_toSigned (u w : Nat) (h1w : 1 ≤ w) (h15 : w ≤ 15) (hu : u < 2 ^ w) :
    toSigned 16 (SignExtend u w) = toSigned w u := by
  have hQpos : 0 < 2 ^ (w - 1) := pow_pos (by norm_num) _
  have hPQ : 2 ^ w = 2 * 2 ^ (w - 1) := by
    conv_lhs => rw [show w = (w - 1) + 1 by omega]
    rw [pow_succ]
    ring
  have hsign : u / 2 ^ (w - 1) % 2 = 1 ↔ 2 ^ (w - 1) ≤ u := by
    constructor
    · intro h
      by_contra hlt
      push_neg at hlt
      rw [Nat.div_eq_of_lt hlt] at h
      norm_num at h
    · intro h
      have hub : u / 2 ^ (w - 1) < 2 := by
        rw [Nat.div_lt_iff_lt_mul hQpos]
        omega
      have hlb : 1 ≤ u / 2 ^ (w - 1) := (Nat.one_le_div_iff hQpos).2 h
      omega
  have hP15 : 2 ^ w ≤ 32768 := by
    calc 2 ^ w ≤ 2 ^ 15 := Nat.pow_le_pow_right (by norm_num) h15
    _ = 32768 := by norm_num
  have hse : SignExtend u w = if 2 ^ (w - 1) ≤ u then 65536 - 2 ^ w + u else u := by
    simp only [SignExtend, Nat.and_one_is_mod, Nat.shiftRight_eq_div_pow, Nat.shiftLeft_eq]
    by_cases hb : 2 ^ (w - 1) ≤ u
    · rw [if_pos (hsign.2 hb), if_pos hb]
      have hOr : u ||| 65535 * 2 ^ w = 2 ^ w * 65535 + u := by
        rw [Nat.lor_comm, Nat.mul_comm 65535 (2 ^ w), ← Nat.mul_add_lt_is_or hu]
      rw [hOr]
      omega
    · rw [if_neg (fun hc => hb (hsign.1 hc)), if_neg hb]
  have hcastP : ((2 ^ w : Nat) : Int) = (2 : Int) ^ w := by push_cast; ring
  have hcastQ : ((2 ^ (w - 1) : Nat) : Int) = (2 : Int) ^ (w - 1) := by push_cast; ring
  rw [hse]
  simp only [toSigned]
  norm_num
  split_ifs <;> omega

/-- C4: for any 16-bit value and any width in {5, 6, 9, 11}, the
sign-extension of the low `w` bits, read back as a signed 16-bit
integer, equals those low `w` bits read as a `w`-bit signed integer. -/
theorem C4_sign_extension (v w : Nat) (hw : w = 5 ∨ w = 6 ∨ w = 9 ∨ w = 11) :
    toSigned 16 (SignExtend (v &&& (2 ^ w - 1)) w) = toSigned w (v &&& (2 ^ w - 1)) := by
  have hmask : v &&& (2 ^ w - 1) = v % 2 ^ w := Nat.and_pow_two_sub_one_eq_mod v w
  rw [hmask]
  have hlt : v % 2 ^ w < 2 ^ w := Nat.mod_lt _ (pow_pos (by norm_num) _)
  rcases hw with rfl | rfl | rfl | rfl <;>
    exact signExtend_toSigned _ _ (by norm_num) (by norm_num) hlt

theorem C4_sign_extension_witness :
    toSigned 16 (SignExtend (0x10 &&& (2 ^ 5 - 1)) 5) =
      toSigned 5 (0x10 &&& (2 ^ 5 - 1)) :=
  C4_sign_extension 0x10 5 (Or.inl rfl)

theorem memRead_memory_at (m : Machine) (b a : Nat)
    (h1 : a ≠ MR_KBSR) (h2 : a ≠ MR_KBDR) :
    (memRead m b).2.memory a = m.memory a := by
  simp only [memRead]
  split_ifs <;> simp [updFn, h1, h2]

theorem memRead_regs (m : Machine) (b : Nat) : (memRead m b).2.regs = m.regs := by
  simp only [memRead]
  split_ifs <;> rfl

/-- C9 counterexample: the claim as stated fails at `a = 0xFE02`.
Writing 5 to KBDR, then reading KBSR while a key (character 65) is
pending, then reading KBDR returns 65, not 5: the KBSR read is a bus
operation on another address yet it overwrites KBDR. -/
theorem C9_write_read_counterexample :
    (memRead
        (runBusOps
          (memWrite
            { regs := fun _ => 0, memory := fun _ => 0, running := true,
              keyAvail := [true], input := [65], output := [] }
            0xFE02 5)
          [BusOp.read 0xFE00])
        0xFE02).1 = 65 ∧ (65 : Nat) ≠ 5 := by
  constructor
  · rfl
  · decide

/-- C9, amended: for every address `a` other than KBSR (`0xFE00`) and
KBDR (`0xFE02`) and every 16-bit value `v`, a `write(a, v)` followed by
any bus operations that do not write to `a` and then a `read(a)`
returns `v`. -/
theorem C9_write_read_amended (m : Machine) (a v : Nat) (ops : List BusOp)
    (ha1 : a ≠ 0xFE00) (ha2 : a ≠ 0xFE02) (hv : v < 65536)
    (hops : ∀ op ∈ ops, ∀ w, op ≠ BusOp.write a w) :
    (memRead (runBusOps (memWrite m a v) ops) a).1 = v := by
  have ha1k : a ≠ MR_KBSR := by simpa [MR_KBSR] using ha1
  have ha2k : a ≠ MR_KBDR := by simpa [MR_KBDR] using ha2
  have hmem : ∀ (m2 : Machine) (ops2 : List BusOp),
      (∀ op ∈ ops2, ∀ w, op ≠ BusOp.write a w) →
      (runBusOps m2 ops2).memory a = m2.memory a := by
    intro m2 ops2 h2
    induction ops2 generalizing m2 with
    | nil => rfl
    | cons op ops2 ih =>
      cases op with
      | read b =>
        simp only [runBusOps]
        rw [ih _ (fun o ho w => h2 o (by simp [ho]) w), memRead_memory_at _ _ _ ha1k ha2k]
      | write b w =>
        simp only [runBusOps]
        rw [ih _ (fun o ho w2 => h2 o (by simp [ho]) w2)]
        have hba : a ≠ b := by
          intro hba
          exact (h2 (BusOp.write b w) (by simp) w) (by rw [hba])
        simp [memWrite, updFn, hba]
  have hfinal : (memRead (runBusOps (memWrite m a v) ops) a).1 =
      (runBusOps (memWrite m a v) ops).memory a := by
    simp only [memRead]
    rw [if_neg ha1k]
  rw [hfinal, hmem _ _ hops]
  simp [memWrite, updFn]

theorem C9_write_read_amended_witness :
    (memRead
        (runBusOps
          (memWrite
            { regs := fun _ => 0, memory := fun _ => 0, running := true,
              keyAvail := [true], input := [65], output := [] }
            0x4000 123)
          [BusOp.read 0x4000, BusOp.write 0x5000 1, BusOp.read 0xFE00])
        0x4000).1 = 123 := by
  apply C9_write_read_amended
  · decide
  · decide
  · decide
  · intro op hop w
    simp only [List.mem_cons, List.not_mem_nil, or_false] at hop
    rcases hop with rfl | rfl | rfl <;> simp

theorem putspBytes_spec (mem : Nat → Nat) (n : Nat) :
    ∀ (c fuel : Nat), n < fuel → (∀ i, i < n → mem (c + i) ≠ 0) →
    mem (c + n) = 0 → Trap.putspBytes mem c fuel = putspSpec mem c n := by
  induction n with
  | zero =>
    intro c fuel hf h1 h0
    cases fuel with
    | zero => omega
    | succ f =>
      simp only [Trap.putspBytes, putspSpec]
      rw [if_pos (by simpa using h0)]
  | succ n ih =>
    intro c fuel hf h1 h0
    cases fuel with
    | zero => omega
    | succ f =>
      simp only [Trap.putspBytes, putspSpec]
      rw [if_neg (by simpa using h1 0 (by omega))]
      rw [ih (c + 1) f (by omega)
        (fun i hi => by
          rw [show c + 1 + i = c + (i + 1) by omega]
          exact h1 (i + 1) (by omega))
        (by rw [show c + 1 + n = c + (n + 1) by omega]; exact h0)]
      rfl

/-- C8: a TRAP with vector `0x24` (PUTSP) emits, for each word from
`memory[R0]` up to but not including the first zero 16-bit word, the
low byte of the word followed by its high byte when that high byte is
non-zero; the scan stops only at a zero word, never at a zero byte
inside a non-zero word.  Registers beyond the R7 save, memory and the
run flag are untouched. -/
theorem C8_putsp_output (m : Machine) (instruction n : Nat)
    (hv : instruction &&& 0x00FF = 0x24)
    (hnz : ∀ i, i < n → m.memory (m.regs R_0 + i) ≠ 0)
    (hz : m.memory (m.regs R_0 + n) = 0)
    (hb : m.regs R_0 + n < 65536) :
    (Trap.Proxy instruction m).output =
      m.output ++ putspSpec m.memory (m.regs R_0) n ∧
    (Trap.Proxy instruction m).regs = updFn m.regs R_7 (m.regs R_PC) ∧
    (Trap.Proxy instruction m).memory = m.memory ∧
    (Trap.Proxy instruction m).running = m.running := by
  have hr0 : updFn m.regs R_7 (m.regs R_PC) R_0 = m.regs R_0 := by
    simp [updFn, R_0, R_7]
  have h1 : Trap.Proxy instruction m =
      Trap.PUTSP { m with regs := updFn m.regs R_7 (m.regs R_PC) } := by
    simp only [Trap.Proxy, hv]
    norm_num
  rw [h1]
  simp only [Trap.PUTSP]
  refine ⟨?_, by trivial, by trivial, by trivial⟩
  rw [hr0, putspBytes_spec _ _ _ _ (by omega) hnz hz]

theorem C8_putsp_output_witness :
    (Trap.Proxy 0xF024
      { regs := fun i => if i = 0 then 0x3000 else 0x3333,
        memory := fun a => if a = 0x3000 then 0x4142 else if a = 0x3001 then 0x0043 else 0,
        running := true, keyAvail := [], input := [], output := [] }).output
      = [0x42, 0x41, 0x43] := by
  have h := (C8_putsp_output
    { regs := fun i => if i = 0 then 0x3000 else 0x3333,
      memory := fun a => if a = 0x3000 then 0x4142 else if a = 0x3001 then 0x0043 else 0,
      running := true, keyAvail := [], input := [], output := [] }
    0xF024 2 (by decide)
    (by decide)
    (by decide)
    (by decide)).1
  rw [h]
  decide

theorem updateFlags_at (regs : Nat → Nat) (DR j : Nat) (hj : j ≠ R_COND) :
    UpdateFlags regs DR j = regs j := by
  simp only [UpdateFlags]
  split_ifs <;> simp [updFn, hj]

theorem flagWrite_pc (regs : Nat → Nat) (DR v : Nat) (hDR : DR ≤ 7) :
    UpdateFlags (updFn regs DR v) DR R_PC = regs R_PC := by
  rw [updateFlags_at _ _ _ (by decide), updFn_other _ _ _ _ (by simp [R_PC]; omega)]

theorem updateFlags_cond (regs : Nat → Nat) (DR : Nat) :
    UpdateFlags regs DR R_COND = 1 ∨ UpdateFlags regs DR R_COND = 2 ∨
    UpdateFlags regs DR R_COND = 4 := by
  simp only [UpdateFlags]
  split_ifs <;> simp [updFn, FL_ZERO, FL_NEGATIVE, FL_POSITIVE]

theorem ADD_pc (instruction : Nat) (regs : Nat → Nat) :
    ALU.ADD instruction regs R_PC = regs R_PC := by
  simp only [ALU.ADD]
  by_cases h : (instruction >>> 5) &&& 0x0001 = 1 <;>
    simp only [h, if_true, if_false, ite_true, ite_false] <;>
    exact flagWrite_pc _ _ _ Nat.and_le_right

theorem AND_pc (instruction : Nat) (regs : Nat → Nat) :
    ALU.AND instruction regs R_PC = regs R_PC := by
  simp only [ALU.AND]
  by_cases h : (instruction >>> 5) &&& 0x0001 = 1 <;>
    simp only [h, if_true, if_false, ite_true, ite_false] <;>
    exact flagWrite_pc _ _ _ Nat.and_le_right

theorem NOT_pc (instruction : Nat) (regs : Nat → Nat) :
    ALU.NOT instruction regs R_PC = regs R_PC := by
  simp only [ALU.NOT]
  exact flagWrite_pc _ _ _ Nat.and_le_right

theorem LEA_pc (instruction : Nat) (regs : Nat → Nat) :
    ALU.LEA instruction regs R_PC = regs R_PC := by
  simp only [ALU.LEA]
  exact flagWrite_pc _ _ _ Nat.and_le_right

theorem BR_not_taken (instruction : Nat) (regs : Nat → Nat)
    (h : ((instruction >>> 9) &&& 0x0007) &&& regs R_COND = 0) :
    ALU.BR instruction regs = regs := by
  simp only [ALU.BR]
  rw [if_neg (by simpa using h)]

theorem LD_pc (instruction : Nat) (m : Machine) :
    (ALU.LD instruction m).regs R_PC = m.regs R_PC := by
  simp only [ALU.LD]
  rw [flagWrite_pc _ _ _ Nat.and_le_right, memRead_regs]

theorem LDR_pc (instruction : Nat) (m : Machine) :
    (ALU.LDR instruction m).regs R_PC = m.regs R_PC := by
  simp only [ALU.LDR]
  rw [flagWrite_pc _ _ _ Nat.and_le_right, memRead_regs]

theorem LDI_pc (instruction : Nat) (m : Machine) :
    (ALU.LDI instruction m).regs R_PC = m.regs R_PC := by
  simp only [ALU.LDI]
  rw [flagWrite_pc _ _ _ Nat.and_le_right, memRead_regs, memRead_regs]

theorem ST_regs (instruction : Nat) (m : Machine) :
    (ALU.ST instruction m).regs = m.regs := rfl

theorem STR_regs (instruction : Nat) (m : Machine) :
    (ALU.STR instruction m).regs = m.regs := rfl

theorem STI_regs (instruction : Nat) (m : Machine) :
    (ALU.STI instruction m).regs = m.regs := by
  simp only [ALU.STI, memWrite]
  rw [memRead_regs]

/-- C5 counterexample: the claim as stated excepts only a NOT-taken BR,
so a taken BR falls under it, yet a taken `BRz #2` fetched at `0x3000`
with `R_COND = Z` leaves `R_PC = 0x3003`, not the pre-fetch PC plus
1 (`0x3001`). -/
theorem C5_pc_increment_counterexample :
    (step
        { regs := fun i => if i = 8 then 0x3000 else if i = 9 then 2 else 0,
          memory := fun a => if a = 0x3000 then 0x0402 else 0,
          running := true, keyAvail := [], input := [], output := [] }).map
      (fun m2 => m2.regs R_PC) = some 0x3003 ∧
    (0x3003 : Nat) ≠ (0x3000 + 1) % 65536 := by
  constructor
  · decide
  · decide

/-- C5, amended: for every executed instruction except BR (taken), JMP,
JSR, and TRAP, the program counter after the fetch-decode-execute step
equals the pre-fetch program counter plus 1, modulo 2^16; the fetch
reads the bus at `R_PC` and post-increments `R_PC` before decode. -/
theorem C5_pc_increment (m : Machine) (instruction : Nat)
    (hi : (memRead m (m.regs R_PC)).1 = instruction)
    (hop : instruction >>> 12 = 1 ∨ instruction >>> 12 = 2 ∨
      instruction >>> 12 = 3 ∨ instruction >>> 12 = 5 ∨
      instruction >>> 12 = 6 ∨ instruction >>> 12 = 7 ∨
      instruction >>> 12 = 9 ∨ instruction >>> 12 = 10 ∨
      instruction >>> 12 = 11 ∨ instruction >>> 12 = 14 ∨
      (instruction >>> 12 = 0 ∧
        ((instruction >>> 9) &&& 0x0007) &&& m.regs R_COND = 0)) :
    (step m).map (fun m2 => m2.regs R_PC) = some ((m.regs R_PC + 1) % 65536) := by
  simp only [step, hi]
  have hm1pc : updFn (memRead m (m.regs R_PC)).2.regs R_PC
      (((memRead m (m.regs R_PC)).2.regs R_PC + 1) % 65536) R_PC
      = (m.regs R_PC + 1) % 65536 := by
    rw [updFn_same, memRead_regs]
  rcases hop with h | h | h | h | h | h | h | h | h | h | ⟨h, hbr⟩ <;>
    simp only [h, Option.map] <;> norm_num
  · rw [ADD_pc, hm1pc]
  · rw [LD_pc]
    simp only []
    rw [hm1pc]
  · rw [ST_regs]
    simp only []
    rw [hm1pc]
  · rw [AND_pc, hm1pc]
  · rw [LDR_pc]
    simp only []
    rw [hm1pc]
  · rw [STR_regs]
    simp only []
    rw [hm1pc]
  · rw [NOT_pc, hm1pc]
  · rw [LDI_pc]
    simp only []
    rw [hm1pc]
  · rw [STI_regs]
    simp only []
    rw [hm1pc]
  · rw [LEA_pc, hm1pc]
  · have hcond : updFn (memRead m (m.regs R_PC)).2.regs R_PC
        (((memRead m (m.regs R_PC)).2.regs R_PC + 1) % 65536) R_COND
        = m.regs R_COND := by
      rw [updFn_other _ _ _ _ (by decide), memRead_regs]
    rw [BR_not_taken _ _ (by rw [hcond]; exact hbr), hm1pc]

theorem C5_pc_increment_witness :
    (step
        { regs := fun i => if i = 8 then 0x3000 else 0,
          memory := fun a => if a = 0x3000 then 0x1001 else 0,
          running := true, keyAvail := [], input := [], output := [] }).map
      (fun m2 => m2.regs R_PC) = some 0x3001 := by
  have h := C5_pc_increment
    { regs := fun i => if i = 8 then 0x3000 else 0,
      memory := fun a => if a = 0x3000 then 0x1001 else 0,
      running := true, keyAvail := [], input := [], output := [] }
    0x1001 rfl (Or.inl (by decide))
  simpa using h

/-- C6: a fetched instruction whose high nibble is 8 (RTI) or 13 (RES)
makes the engine abort (the step yields no successor state); every
other opcode value dispatches a handler and yields a successor
state. -/
theorem C6_illegal_opcodes (m : Machine) (instruction : Nat)
    (hi : (memRead m (m.regs R_PC)).1 = instruction)
    (hlt : instruction < 65536) :
    step m = none ↔ (instruction >>> 12 = 8 ∨ instruction >>> 12 = 13) := by
  have hop : instruction >>> 12 < 16 := by
    rw [Nat.shiftRight_eq_div_pow]
    omega
  simp only [step, hi]
  generalize instruction >>> 12 = op at hop ⊢
  interval_cases op <;> simp

theorem C6_illegal_opcodes_witness :
    step
      { regs := fun i => if i = 8 then 0x3000 else 0,
        memory := fun a => if a = 0x3000 then 0x8000 else 0,
        running := true, keyAvail := [], input := [], output := [] } = none := by
  exact (C6_illegal_opcodes
    { regs := fun i => if i = 8 then 0x3000 else 0,
      memory := fun a => if a = 0x3000 then 0x8000 else 0,
      running := true, keyAvail := [], input := [], output := [] }
    0x8000 rfl (by decide)).2 (Or.inl (by decide))

theorem ADD_cond (instruction : Nat) (regs : Nat → Nat) :
    ALU.ADD instruction regs R_COND = 1 ∨ ALU.ADD instruction regs R_COND = 2 ∨
    ALU.ADD instruction regs R_COND = 4 := by
  simp only [ALU.ADD]
  exact updateFlags_cond _ _

theorem AND_cond (instruction : Nat) (regs : Nat → Nat) :
    ALU.AND instruction regs R_COND = 1 ∨ ALU.AND instruction regs R_COND = 2 ∨
    ALU.AND instruction regs R_COND = 4 := by
  simp only [ALU.AND]
  exact updateFlags_cond _ _

theorem NOT_cond (instruction : Nat) (regs : Nat → Nat) :
    ALU.NOT instruction regs R_COND = 1 ∨ ALU.NOT instruction regs R_COND = 2 ∨
    ALU.NOT instruction regs R_COND = 4 := by
  simp only [ALU.NOT]
  exact updateFlags_cond _ _

theorem LEA_cond (instruction : Nat) (regs : Nat → Nat) :
    ALU.LEA instruction regs R_COND = 1 ∨ ALU.LEA instruction regs R_COND = 2 ∨
    ALU.LEA instruction regs R_COND = 4 := by
  simp only [ALU.LEA]
  exact updateFlags_cond _ _

theorem LD_cond (instruction : Nat) (m : Machine) :
    (ALU.LD instruction m).regs R_COND = 1 ∨ (ALU.LD instruction m).regs R_COND = 2 ∨
    (ALU.LD instruction m).regs R_COND = 4 := by
  simp only [ALU.LD]
  exact updateFlags_cond _ _

theorem LDR_cond (instruction : Nat) (m : Machine) :
    (ALU.LDR instruction m).regs R_COND = 1 ∨ (ALU.LDR instruction m).regs R_COND = 2 ∨
    (ALU.LDR instruction m).regs R_COND = 4 := by
  simp only [ALU.LDR]
  exact updateFlags_cond _ _

theorem LDI_cond (instruction : Nat) (m : Machine) :
    (ALU.LDI instruction m).regs R_COND = 1 ∨ (ALU.LDI instruction m).regs R_COND = 2 ∨
    (ALU.LDI instruction m).regs R_COND = 4 := by
  simp only [ALU.LDI]
  exact updateFlags_cond _ _

theorem BR_cond (instruction : Nat) (regs : Nat → Nat) :
    ALU.BR instruction regs R_COND = regs R_COND := by
  simp only [ALU.BR]
  split_ifs
  · exact updFn_other _ _ _ _ (by decide)
  · rfl

theorem JMP_cond (instruction : Nat) (regs : Nat → Nat) :
    ALU.JMP instruction regs R_COND = regs R_COND := by
  simp only [ALU.JMP]
  exact updFn_other _ _ _ _ (by decide)

theorem JSR_cond (instruction : Nat) (regs : Nat → Nat) :
    ALU.JSR instruction regs R_COND = regs R_COND := by
  simp only [ALU.JSR]
  split_ifs <;>
    rw [updFn_other _ _ _ _ (by decide), updFn_other _ _ _ _ (by decide)]

theorem Proxy_cond (instruction : Nat) (m : Machine) :
    (Trap.Proxy instruction m).regs R_COND = m.regs R_COND ∨
    ((Trap.Proxy instruction m).regs R_COND = 1 ∨
     (Trap.Proxy instruction m).regs R_COND = 2 ∨
     (Trap.Proxy instruction m).regs R_COND = 4) := by
  have h7 : updFn m.regs R_7 (m.regs R_PC) R_COND = m.regs R_COND :=
    updFn_other _ _ _ _ (by decide)
  simp only [Trap.Proxy]
  split_ifs
  · exact Or.inr (by simp only [Trap.GETC]; exact updateFlags_cond _ _)
  · exact Or.inl (by simp only [Trap.OUTC]; exact h7)
  · exact Or.inl (by simp only [Trap.PUTS]; exact h7)
  · exact Or.inr (by simp only [Trap.INC]; exact updateFlags_cond _ _)
  · exact Or.inl (by simp only [Trap.PUTSP]; exact h7)
  · exact Or.inl (by simp only [Trap.HALT]; exact h7)
  · exact Or.inl h7

theorem step_cond (m m2 : Machine) (hstep : step m = some m2)
    (hm : m.regs R_COND = 1 ∨ m.regs R_COND = 2 ∨ m.regs R_COND = 4) :
    m2.regs R_COND = 1 ∨ m2.regs R_COND = 2 ∨ m2.regs R_COND = 4 := by
  have hm1 : updFn (memRead m (m.regs R_PC)).2.regs R_PC
      (((memRead m (m.regs R_PC)).2.regs R_PC + 1) % 65536) R_COND
      = m.regs R_COND := by
    rw [updFn_other _ _ _ _ (by decide), memRead_regs]
  simp only [step] at hstep
  generalize hI : (memRead m (m.regs R_PC)).1 = instr at hstep
  generalize hM : (memRead m (m.regs R_PC)).2 = mm at hstep hm1
  generalize hR : updFn mm.regs R_PC ((mm.regs R_PC + 1) % 65536) = regs1 at hstep hm1
  by_cases h1 : instr >>> 12 = 1
  · rw [if_pos h1] at hstep
    injection hstep with h
    subst h
    exact ADD_cond _ _
  rw [if_neg h1] at hstep
  by_cases h5 : instr >>> 12 = 5
  · rw [if_pos h5] at hstep
    injection hstep with h
    subst h
    exact AND_cond _ _
  rw [if_neg h5] at hstep
  by_cases h9 : instr >>> 12 = 9
  · rw [if_pos h9] at hstep
    injection hstep with h
    subst h
    exact NOT_cond _ _
  rw [if_neg h9] at hstep
  by_cases h0 : instr >>> 12 = 0
  · rw [if_pos h0] at hstep
    injection hstep with h
    subst h
    show ALU.BR instr regs1 R_COND = 1 ∨ ALU.BR instr regs1 R_COND = 2 ∨
      ALU.BR instr regs1 R_COND = 4
    rw [BR_cond, hm1]
    exact hm
  rw [if_neg h0] at hstep
  by_cases h12 : instr >>> 12 = 12
  · rw [if_pos h12] at hstep
    injection hstep with h
    subst h
    show ALU.JMP instr regs1 R_COND = 1 ∨ ALU.JMP instr regs1 R_COND = 2 ∨
      ALU.JMP instr regs1 R_COND = 4
    rw [JMP_cond, hm1]
    exact hm
  rw [if_neg h12] at hstep
  by_cases h4 : instr >>> 12 = 4
  · rw [if_pos h4] at hstep
    injection hstep with h
    subst h
    show ALU.JSR instr regs1 R_COND = 1 ∨ ALU.JSR instr regs1 R_COND = 2 ∨
      ALU.JSR instr regs1 R_COND = 4
    rw [JSR_cond, hm1]
    exact hm
  rw [if_neg h4] at hstep
  by_cases h2 : instr >>> 12 = 2
  · rw [if_pos h2] at hstep
    injection hstep with h
    subst h
    exact LD_cond _ _
  rw [if_neg h2] at hstep
  by_cases h10 : instr >>> 12 = 10
  · rw [if_pos h10] at hstep
    injection hstep with h
    subst h
    exact LDI_cond _ _
  rw [if_neg h10] at hstep
  by_cases h6 : instr >>> 12 = 6
  · rw [if_pos h6] at hstep
    injection hstep with h
    subst h
    exact LDR_cond _ _
  rw [if_neg h6] at hstep
  by_cases h14 : instr >>> 12 = 14
  · rw [if_pos h14] at hstep
    injection hstep with h
    subst h
    exact LEA_cond _ _
  rw [if_neg h14] at hstep
  by_cases h3 : instr >>> 12 = 3
  · rw [if_pos h3] at hstep
    injection hstep with h
    subst h
    rw [ST_regs]
    show regs1 R_COND = 1 ∨ regs1 R_COND = 2 ∨ regs1 R_COND = 4
    rw [hm1]
    exact hm
  rw [if_neg h3] at hstep
  by_cases h11 : instr >>> 12 = 11
  · rw [if_pos h11] at hstep
    injection hstep with h
    subst h
    rw [STI_regs]
    show regs1 R_COND = 1 ∨ regs1 R_COND = 2 ∨ regs1 R_COND = 4
    rw [hm1]
    exact hm
  rw [if_neg h11] at hstep
  by_cases h7 : instr >>> 12 = 7
  · rw [if_pos h7] at hstep
    injection hstep with h
    subst h
    rw [STR_regs]
    show regs1 R_COND = 1 ∨ regs1 R_COND = 2 ∨ regs1 R_COND = 4
    rw [hm1]
    exact hm
  rw [if_neg h7] at hstep
  by_cases h15 : instr >>> 12 = 15
  · rw [if_pos h15] at hstep
    injection hstep with h
    subst h
    rcases Proxy_cond instr
        ⟨regs1, mm.memory, mm.running, mm.keyAvail, mm.input, mm.output⟩ with h | h
    · rw [h]
      show regs1 R_COND = 1 ∨ regs1 R_COND = 2 ∨ regs1 R_COND = 4
      rw [hm1]
      exact hm
    · exact h
  rw [if_neg h15] at hstep
  exact Option.noConfusion hstep

/-- C3: UpdateFlags writes into `R_COND` exactly the one-hot sign
classification of the value currently held by the destination register
(2 when zero, 4 when bit 15 is set, 1 otherwise), touching no other
register — so flags are assigned, never OR-combined — and in every
reachable state after initialization `R_COND` is one of {1, 2, 4}. -/
theorem C3_condition_codes :
    (∀ (regs : Nat → Nat) (DR : Nat), regs DR < 65536 →
      UpdateFlags regs DR R_COND =
        (if regs DR = 0 then 2 else if Nat.testBit (regs DR) 15 then 4 else 1) ∧
      (∀ j, j ≠ R_COND → UpdateFlags regs DR j = regs j)) ∧
    (∀ m, Reachable m →
      (m.regs R_COND = 1 ∨ m.regs R_COND = 2 ∨ m.regs R_COND = 4)) := by
  constructor
  · intro regs DR hlt
    constructor
    · have hdiv : regs DR >>> 15 = regs DR / 32768 := by
        rw [Nat.shiftRight_eq_div_pow]
      by_cases h0 : regs DR = 0
      · simp [UpdateFlags, h0, updFn_same, FL_ZERO]
      · by_cases hneg : regs DR >>> 15 = 1
        · have htb : Nat.testBit (regs DR) 15 = true := by
            rw [Nat.testBit_to_div_mod]
            rw [hdiv] at hneg
            norm_num
            omega
          simp [UpdateFlags, h0, hneg, htb, updFn_same, FL_NEGATIVE]
        · have htb : Nat.testBit (regs DR) 15 = false := by
            rw [Nat.testBit_to_div_mod]
            rw [hdiv] at hneg
            have hlt2 : regs DR / 32768 < 2 := by omega
            norm_num
            omega
          simp [UpdateFlags, h0, hneg, htb, updFn_same, FL_POSITIVE]
    · intro j hj
      exact updateFlags_at _ _ _ hj
  · intro m hr
    induction hr with
    | base g mem keys inp => simp [initMachine, updFn, R_COND, R_PC, FL_ZERO]
    | next m m2 hr hstep ih => exact step_cond m m2 hstep ih

theorem C3_condition_codes_witness :
    UpdateFlags (fun _ => 0x8000) 0 R_COND =
      (if (0x8000 : Nat) = 0 then 2 else if Nat.testBit 0x8000 15 then 4 else 1) ∧
    ((initMachine (fun _ => 0) (fun _ => 0) [] []).regs R_COND = 1 ∨
     (initMachine (fun _ => 0) (fun _ => 0) [] []).regs R_COND = 2 ∨
     (initMachine (fun _ => 0) (fun _ => 0) [] []).regs R_COND = 4) := by
  constructor
  · exact (C3_condition_codes.1 (fun _ => 0x8000) 0 (by decide)).1
  · exact C3_condition_codes.2 _ (Reachable.base (fun _ => 0) (fun _ => 0) [] [])
